import Mathlib

/-!
Verification development for the outgoing-withdrawal pool of the gravity
bridge module (`module/x/gravity/keeper/pool.go` together with the
`types` value definitions for Ethereum addresses and ERC20 token amounts).

The Go code is shallowly embedded: pure functions become Lean functions,
the keeper's store access becomes explicit state passing over an
association-list model of the ordered key-value store, machine integers
become `Nat`/`Int` with explicit `% 2^64` where overflow matters, Go
`error` returns become `Except`/explicit error constructors, and Go
`panic` becomes a dedicated `panic`-style constructor of the outcome
type (a panic aborts the whole enclosing state transition, so it carries
no resulting state).
-/

namespace Gravity

/-- Decidable equality of `Except` results (Go `(value, error)` pairs are
compared in concrete checks). -/
instance {e a : Type} [DecidableEq e] [DecidableEq a] : DecidableEq (Except e a)
  | .ok x, .ok y => if h : x = y then .isTrue (by rw [h]) else .isFalse (by simp [h])
  | .ok _, .error _ => .isFalse (by simp)
  | .error _, .ok _ => .isFalse (by simp)
  | .error x, .error y => if h : x = y then .isTrue (by rw [h]) else .isFalse (by simp [h])

/-! ## Value types: Ethereum addresses (types/ethereum.go part of the source) -/

/-- One character of `[0-9a-fA-F]`, as used by the address regex in
`ValidateEthAddress`. -/
def isHexChar (c : Char) : Bool :=
  c.isDigit || ('a' ≤ c && c ≤ 'f') || ('A' ≤ c && c ≤ 'F')

/-- `ValidateEthAddress`: the input must be non-empty, have exactly 42
characters, and match `^0x[0-9a-fA-F]\x7b40\x7d$`.  Returns `some errorMessage`
on failure and `none` on success (mirroring Go's `error` result).  String
processing is done on the character list; the accepted set of strings is
exactly that of the Go regex (all accepted strings are ASCII, where byte
length and character length agree). -/
def ValidateEthAddress (address : String) : Option String :=
  if address.data = [] then some "empty"
  else if address.data.length ≠ 42 then some "wrong length"
  else
    match address.data with
    | '0' :: 'x' :: rest => if rest.all isHexChar then none else some "regex"
    | _ => some "regex"

/-- `EthAddress`: wrapper struct holding the address string (field
`address` in the types file; the same data is accessed as `.Address` by
pool.go). -/
structure EthAddress where
  address : String
deriving DecidableEq, Repr

/-- `EthAddress.GetAddress`. -/
def EthAddress.GetAddress (ea : EthAddress) : String := ea.address

/-- `EthAddress.ValidateBasic`: validates the wrapped string. -/
def EthAddress.ValidateBasic (ea : EthAddress) : Option String :=
  ValidateEthAddress ea.address

/-- `NewEthAddress`: validates, then wraps. -/
def NewEthAddress (address : String) : Except String EthAddress :=
  match ValidateEthAddress address with
  | some e => .error e
  | none => .ok ⟨address⟩

/-- `EthAddress.SetAddress` has a *value* receiver in Go: the body
validates the input and then assigns to its own copy of the receiver.
The embedding returns the method's copy of the receiver as it stands
when the method returns, together with the returned `error`. -/
def EthAddress.SetAddress (ea : EthAddress) (address : String) :
    EthAddress × Option String :=
  match ValidateEthAddress address with
  | some e => (ea, some e)
  | none => (⟨address⟩, none)

/-- Go call semantics for a method with a value receiver: the body runs
on a copy of the receiver; the copy's final state is discarded and the
caller's variable is unchanged.  The first component is the caller's
receiver after the call, the second the method's return value. -/
def callOnCopy {σ ρ : Type} (body : σ → σ × ρ) (receiver : σ) : σ × ρ :=
  (receiver, (body receiver).2)

/-- `OptionalEthAddress`: nillable address, a pair of an `isNil` flag and
a possibly-nil pointer (modelled as `Option`). -/
structure OptionalEthAddress where
  isNil : Bool
  optional : Option EthAddress
deriving DecidableEq, Repr

/-- `OptionalEthAddress.Unwrap`: error when `isNil`, else the wrapped
pointer (which the type does not prevent from being nil). -/
def OptionalEthAddress.Unwrap (o : OptionalEthAddress) :
    Except String (Option EthAddress) :=
  if o.isNil then .error "nil value" else .ok o.optional

/-- `OptionalEthAddress.SetEthAddress` also has a value receiver; as with
`EthAddress.SetAddress` the embedding returns the method's copy of the
receiver at return time (the method itself returns nothing). -/
def OptionalEthAddress.SetEthAddress (o : OptionalEthAddress)
    (ethAddress : Option EthAddress) : OptionalEthAddress × Unit :=
  match ethAddress with
  | none => (⟨true, none⟩, ())
  | some a => (⟨false, some a⟩, ())

/-! ## Value types: ERC20 tokens and coins -/

/-- Result of a computation that can Go-`panic`.  A panic is an abort of
the entire enclosing state transition, distinct from an ordinary `error`
return. -/
inductive Res (α : Type) where
  | ok (a : α)
  | panicked (msg : String)
deriving DecidableEq, Repr

/-- `ERC20Token`: a contract address (identified by its address string;
pool.go reaches the same string through `.Contract.Address`) and an
`sdk.Int` amount (arbitrary-precision integer). -/
structure ERC20Token where
  contract : String
  amount : Int
deriving DecidableEq, Repr

/-- `NewERC20Token`: amount given as a uint64. -/
def NewERC20Token (amount : Nat) (contract : EthAddress) : ERC20Token :=
  ⟨contract.GetAddress, (amount : Int)⟩

/-- `NewSDKIntERC20Token`: amount given as an `sdk.Int`. -/
def NewSDKIntERC20Token (amount : Int) (contract : EthAddress) : ERC20Token :=
  ⟨contract.GetAddress, amount⟩

/-- `ERC20Token.Add`: revalidates both contract addresses (panicking on
an invalid one), panics on differing contracts, adds the amounts, panics
unless the sum fits in a uint64 (`sum.IsUint64()`), and rebuilds the
token via `NewERC20Token(sum.Uint64(), *eContract)`. -/
def ERC20Token.Add (e o : ERC20Token) : Res ERC20Token :=
  match ValidateEthAddress e.contract with
  | some _ => .panicked "invalid parent contract address"
  | none =>
    match ValidateEthAddress o.contract with
    | some _ => .panicked "invalid argument contract address"
    | none =>
      if e.contract ≠ o.contract then .panicked "inconsistent contract addresses"
      else
        let sum := e.amount + o.amount
        if 0 ≤ sum ∧ sum < 2 ^ 64 then .ok ⟨e.contract, sum⟩
        else .panicked "invalid amount"

/-- `GravityDenomPrefix`/`ModuleName`: module constant `"gravity"`. -/
def ModuleName : String := "gravity"

/-- `GravityDenom`: prefix (separator is empty) followed by the contract
address string. -/
def GravityDenom (tokenContract : EthAddress) : String :=
  ModuleName ++ tokenContract.GetAddress

/-- `sdk.Coin`: a denomination and an `sdk.Int` amount. -/
structure Coin where
  denom : String
  amount : Int
deriving DecidableEq, Repr

/-- One character of the `sdk` denomination alphabet `[a-zA-Z0-9/:._-]`. -/
def isDenomChar (c : Char) : Bool :=
  c.isAlphanum || c = '/' || c = ':' || c = '.' || c = '_' || c = '-'

/-- `sdk.ValidateDenom` (external collaborator, modelled after the sdk
regex `[a-zA-Z][a-zA-Z0-9/:._-]\x7b2,127\x7d` that this module's version pins):
first character alphabetic, total length between 3 and 128. -/
def ValidateDenom (d : String) : Bool :=
  match d.data with
  | [] => false
  | c :: rest =>
    c.isAlpha && 3 ≤ d.data.length && d.data.length ≤ 128 && rest.all isDenomChar

/-- `sdk.Coin.IsValid` (external collaborator): valid denomination and a
non-negative amount.  In particular a **zero** amount is valid; the spec
likewise calls for "well-formed non-negative quantities". -/
def Coin.IsValid (c : Coin) : Bool :=
  ValidateDenom c.denom && decide (0 ≤ c.amount)

/-- `ERC20Token.GravityCoin`: panics (`none` here, lifted to a panic at
the call site) when the contract address fails revalidation, else the
coin in the gravity denomination. -/
def ERC20Token.GravityCoin (e : ERC20Token) : Option Coin :=
  match ValidateEthAddress e.contract with
  | some _ => none
  | none => some ⟨GravityDenom ⟨e.contract⟩, e.amount⟩

/-- `sdk.NewCoins` for a single coin (external collaborator): drops zero
coins and panics when the coin is invalid (bad denomination or negative
amount). -/
def NewCoins (coins : List Coin) : Res (List Coin) :=
  match coins.find? (fun c => !c.IsValid) with
  | some _ => .panicked "invalid coin set"
  | none => .ok (coins.filter (fun c => c.amount ≠ 0))

/-! ## Outgoing transfers and the pool store

The composite pool key and the store iteration model.  The key builder
`types.GetOutgoingTxPoolKey` and the contract scoping helper are not part
of the inspected source. -/

/-- `OutgoingTransferTx`: id, bech32 sender string, destination address,
token and fee as ERC20 amounts. -/
structure OutgoingTransferTx where
  id : Nat
  sender : String
  destAddress : EthAddress
  erc20Token : ERC20Token
  erc20Fee : ERC20Token
deriving DecidableEq, Repr

/-- Modelled from the spec: `types.GetOutgoingTxPoolKey` (not under
`src/`) builds "a composite, order-preserving key derived from
`(fee.contract, fee.amount, id)`", lexicographically sortable so that
reverse iteration yields fee-descending then id-descending order within
one contract.  The key is modelled as the triple itself; its order (below)
is the lexicographic one the spec requires the byte encoding to realise. -/
structure PoolKey where
  contract : String
  feeAmount : Int
  id : Nat
deriving DecidableEq, Repr

/-- `types.GetOutgoingTxPoolKey fee id`. -/
def GetOutgoingTxPoolKey (fee : ERC20Token) (id : Nat) : PoolKey :=
  ⟨fee.contract, fee.amount, id⟩

/-- Byte-wise lexicographic comparison of strings as Go compares store
key bytes (`bytes.Compare`), on the character lists.  UTF-8 byte order
agrees with code-point order, so the character-level comparison matches
the byte-level one; it is structurally recursive so that concrete goals
kernel-evaluate. -/
def charListLt : List Char → List Char → Bool
  | _, [] => false
  | [], _ :: _ => true
  | a :: as, b :: bs =>
    if a < b then true
    else if b < a then false
    else charListLt as bs

/-- Strict byte-wise order on strings. -/
def strLt (a b : String) : Prop := charListLt a.data b.data = true

instance (a b : String) : Decidable (strLt a b) := by
  unfold strLt; exact inferInstance

theorem charListLt_irrefl (l : List Char) : charListLt l l = false := by
  induction l with
  | nil => rfl
  | cons a as ih => simp [charListLt, lt_irrefl, ih]

theorem charListLt_eq_of_not {l₁ l₂ : List Char}
    (h₁ : charListLt l₁ l₂ = false) (h₂ : charListLt l₂ l₁ = false) : l₁ = l₂ := by
  induction l₁ generalizing l₂ with
  | nil => cases l₂ with
    | nil => rfl
    | cons b bs => simp [charListLt] at h₁
  | cons a as ih =>
    cases l₂ with
    | nil => simp [charListLt] at h₂
    | cons b bs =>
      by_cases hab : a < b
      · simp [charListLt, hab] at h₁
      · by_cases hba : b < a
        · simp [charListLt, hba] at h₂
        · have hab' : a = b := ((lt_trichotomy a b).resolve_left hab).resolve_right hba
          subst hab'
          simp only [charListLt, if_neg hab, if_neg hba] at h₁ h₂
          exact congrArg (a :: ·) (ih h₁ h₂)

theorem charListLt_trans {l₁ l₂ l₃ : List Char}
    (h₁ : charListLt l₁ l₂ = true) (h₂ : charListLt l₂ l₃ = true) :
    charListLt l₁ l₃ = true := by
  induction l₁ generalizing l₂ l₃ with
  | nil =>
    cases l₃ with
    | nil => cases l₂ <;> simp [charListLt] at h₁ h₂
    | cons c cs => rfl
  | cons a as ih =>
    cases l₂ with
    | nil => simp [charListLt] at h₁
    | cons b bs =>
      cases l₃ with
      | nil => simp [charListLt] at h₂
      | cons c cs =>
        by_cases hab : a < b
        · by_cases hbc : b < c
          · simp [charListLt, lt_trans hab hbc]
          · by_cases hcb : c < b
            · simp [charListLt, hbc, hcb] at h₂
            · have hbc' : b = c := ((lt_trichotomy b c).resolve_left hbc).resolve_right hcb
              subst hbc'
              simp [charListLt, hab]
        · by_cases hba : b < a
          · simp [charListLt, hab, hba] at h₁
          · have hab' : a = b := ((lt_trichotomy a b).resolve_left hab).resolve_right hba
            subst hab'
            simp only [charListLt, if_neg hab, if_neg hba] at h₁
            by_cases hbc : a < c
            · simp [charListLt, hbc]
            · by_cases hcb : c < a
              · simp [charListLt, hbc, hcb] at h₂
              · have hbc' : a = c := ((lt_trichotomy a c).resolve_left hbc).resolve_right hcb
                subst hbc'
                simp only [charListLt, if_neg hbc, if_neg hcb] at h₂ ⊢
                exact ih h₁ h₂

theorem strLt_asymm {a b : String} (h : strLt a b) : ¬ strLt b a := by
  intro h'
  have := charListLt_trans h h'
  rw [charListLt_irrefl] at this
  exact Bool.false_ne_true this

theorem strLt_trichotomy (a b : String) : strLt a b ∨ a = b ∨ strLt b a := by
  by_cases h₁ : charListLt a.data b.data = true
  · exact Or.inl h₁
  · by_cases h₂ : charListLt b.data a.data = true
    · exact Or.inr (Or.inr h₂)
    · refine Or.inr (Or.inl ?_)
      have := charListLt_eq_of_not (Bool.not_eq_true _ ▸ h₁) (Bool.not_eq_true _ ▸ h₂)
      cases a; cases b; exact congrArg String.mk this

/-- The (non-strict) lexicographic order on composite pool keys:
contract bytes, then fee amount, then id.  Ascending iteration of the
underlying ordered store visits keys in this order. -/
def PoolKey.le (a b : PoolKey) : Prop :=
  strLt a.contract b.contract ∨
    (a.contract = b.contract ∧
      (a.feeAmount < b.feeAmount ∨
        (a.feeAmount = b.feeAmount ∧ a.id ≤ b.id)))

instance (a b : PoolKey) : Decidable (PoolKey.le a b) := by
  unfold PoolKey.le; exact inferInstance

theorem PoolKey.le_total (a b : PoolKey) : PoolKey.le a b ∨ PoolKey.le b a := by
  rcases strLt_trichotomy a.contract b.contract with h | h | h
  · exact Or.inl (Or.inl h)
  · rcases lt_trichotomy a.feeAmount b.feeAmount with h2 | h2 | h2
    · exact Or.inl (Or.inr ⟨h, Or.inl h2⟩)
    · rcases Nat.le_total a.id b.id with h3 | h3
      · exact Or.inl (Or.inr ⟨h, Or.inr ⟨h2, h3⟩⟩)
      · exact Or.inr (Or.inr ⟨h.symm, Or.inr ⟨h2.symm, h3⟩⟩)
    · exact Or.inr (Or.inr ⟨h.symm, Or.inl h2⟩)
  · exact Or.inr (Or.inl h)

theorem strLt_irrefl (a : String) : ¬ strLt a a := by
  unfold strLt
  rw [charListLt_irrefl]
  simp

theorem strLt_trans {a b c : String} (h₁ : strLt a b) (h₂ : strLt b c) :
    strLt a c :=
  charListLt_trans h₁ h₂

theorem PoolKey.le_trans {a b c : PoolKey} (hab : PoolKey.le a b)
    (hbc : PoolKey.le b c) : PoolKey.le a c := by
  rcases hab with h1 | ⟨hc1, h1⟩
  · rcases hbc with h2 | ⟨hc2, _⟩
    · exact Or.inl (strLt_trans h1 h2)
    · exact Or.inl (hc2 ▸ h1)
  · rcases hbc with h2 | ⟨hc2, h2⟩
    · exact Or.inl (hc1 ▸ h2)
    · refine Or.inr ⟨hc1.trans hc2, ?_⟩
      rcases h1 with h1 | ⟨hf1, h1⟩
      · rcases h2 with h2 | ⟨hf2, _⟩
        · exact Or.inl (h1.trans h2)
        · exact Or.inl (hf2 ▸ h1)
      · rcases h2 with h2 | ⟨hf2, h2⟩
        · exact Or.inl (hf1 ▸ h2)
        · exact Or.inr ⟨hf1.trans hf2, h1.trans h2⟩

/-- A non-strict key inequality together with key distinctness and equal
contracts yields the strict fee-then-id ordering.  This is the shape the
fee-priority claims need. -/
theorem PoolKey.le_ne_same_contract {a b : PoolKey} (h : PoolKey.le a b)
    (hne : a ≠ b) (hc : a.contract = b.contract) :
    a.feeAmount < b.feeAmount ∨ (a.feeAmount = b.feeAmount ∧ a.id < b.id) := by
  rcases h with h | ⟨_, h⟩
  · exact absurd (hc ▸ h) (strLt_irrefl _)
  · rcases h with h | ⟨hf, h⟩
    · exact Or.inl h
    · refine Or.inr ⟨hf, lt_of_le_of_ne h ?_⟩
      intro hid
      exact hne (by cases a; cases b; simp_all)

/-- The pool store: an association list from composite keys to stored
transactions.  The real store is an ordered key-value store; iteration
order is fully determined by the keys, which the model realises by
sorting at iteration time (`IterateUnbatchedTransactions`). -/
abbrev Store := List (PoolKey × OutgoingTransferTx)

/-- `store.Has`. -/
def storeHas (s : Store) (k : PoolKey) : Bool :=
  (s : List (PoolKey × OutgoingTransferTx)).any (fun e => e.1 = k)

/-- `store.Set` (fresh keys only in this module: `addUnbatchedTX` guards
with `Has` first). -/
def storeSet (s : Store) (k : PoolKey) (v : OutgoingTransferTx) : Store :=
  (k, v) :: (s : List (PoolKey × OutgoingTransferTx))

/-- `store.Delete`. -/
def storeDelete (s : Store) (k : PoolKey) : Store :=
  (s : List (PoolKey × OutgoingTransferTx)).filter (fun e => e.1 ≠ k)

/-- `store.Get`, as an `Option`. -/
def storeGet (s : Store) (k : PoolKey) : Option OutgoingTransferTx :=
  ((s : List (PoolKey × OutgoingTransferTx)).find? (fun e => e.1 = k)).map (·.2)

/-- Reverse (descending) iteration order between store entries: `x`
comes before `y` when `y`'s key is `≤` `x`'s key. -/
def entryGE (x y : PoolKey × OutgoingTransferTx) : Prop :=
  PoolKey.le y.1 x.1

instance : DecidableRel entryGE := by
  unfold entryGE; exact fun x y => inferInstance

instance : IsTotal (PoolKey × OutgoingTransferTx) entryGE :=
  ⟨fun a b => (PoolKey.le_total b.1 a.1).imp id id⟩

instance : IsTrans (PoolKey × OutgoingTransferTx) entryGE :=
  ⟨fun _ _ _ hab hbc => PoolKey.le_trans hbc hab⟩

/-- Modelled from the spec: `types.GetOutgoingTxPoolContractPrefix`
(not under `src/`) scopes iteration to the keys of one fee contract;
`types.OutgoingTXPoolKey` is the whole-pool scope.  A scope is modelled
as the decidable key predicate induced by the byte-prefix match. -/
def contractScope (contractAddress : EthAddress) : PoolKey → Bool :=
  fun k => k.contract = contractAddress.address

/-- The whole-pool scope (`types.OutgoingTXPoolKey`). -/
def allScope : PoolKey → Bool := fun _ => true

/-- `IterateUnbatchedTransactions` visits the store entries inside a
scope in descending key order (a `ReverseIterator` over the scope's byte
range).  The model materialises the visit sequence; the callback-based
consumers below traverse this list with their own early-exit logic. -/
def IterateUnbatchedTransactions (s : Store) (scope : PoolKey → Bool) :
    List (PoolKey × OutgoingTransferTx) :=
  List.insertionSort entryGE
    ((s : List (PoolKey × OutgoingTransferTx)).filter (fun e => scope e.1))

/-- `GetUnbatchedTransactionsByContract` = collect under the contract
scope. -/
def GetUnbatchedTransactionsByContract (s : Store) (contractAddress : EthAddress) :
    List OutgoingTransferTx :=
  (IterateUnbatchedTransactions s (contractScope contractAddress)).map (·.2)

/-- `GetUnbatchedTransactions` = collect under the whole-pool scope. -/
def GetUnbatchedTransactions (s : Store) : List OutgoingTransferTx :=
  (IterateUnbatchedTransactions s allScope).map (·.2)

/-! ## Keeper state, environment and operations -/

/-- The module's error values (`types.ErrInvalid`, `types.ErrDuplicate`,
`types.ErrUnknown`) plus a constructor for errors produced by the
external bank/registry collaborators.  `sdkerrors.Wrap` only decorates
the message, which the model does not track, so wrapping is the
identity on these values. -/
inductive GErr where
  | invalid (msg : String)
  | duplicate (msg : String)
  | unknown (msg : String)
  | collaborator (msg : String)
deriving DecidableEq, Repr

/-- Outcome of a keeper operation.  `ok`/`err` mirror Go's
`(value, error)` results and carry the keeper state as it stands when
the function returns (store writes made before an `error` return persist
at this layer).  `panic` mirrors a Go panic: it aborts the entire
enclosing state transition, so no state survives it. -/
inductive Outcome (ε σ α : Type) where
  | ok (a : α) (s : σ)
  | err (e : ε) (s : σ)
  | panic (msg : String)
deriving DecidableEq, Repr

/-- Keeper state threaded through the operations: the pool store, the
persisted id counter (`types.KeyLastTXPoolID`; `none` when the key is
absent), and the external bank/custody state of type `B`. -/
structure PoolState (B : Type) where
  pool : Store
  idCounter : Option Nat
  bank : B
deriving DecidableEq, Repr

/-- The bank keeper collaborator (`k.bankKeeper`): each custody
operation either fails with an error (leaving its state behind) or
returns the new custody state. -/
structure BankKeeper (B : Type) where
  sendCoinsFromAccountToModule : B → String → String → List Coin → Except GErr B
  burnCoins : B → String → List Coin → Except GErr B
  mintCoins : B → String → List Coin → Except GErr B
  sendCoinsFromModuleToAccount : B → String → String → List Coin → Except GErr B

/-- The external collaborators used by the pool: the bank keeper, and
the token registry (`k.DenomToERC20Lookup` / `k.ERC20ToDenomLookup`). -/
structure Env (B : Type) where
  bankKeeper : BankKeeper B
  denomToERC20Lookup : String → Except GErr (Bool × OptionalEthAddress)
  erc20ToDenomLookup : String → Bool × String

/-- `autoIncrementID`: reads the persisted counter (default 1 when the
key is absent), persists `id + 1` (uint64 arithmetic, hence `% 2^64`),
and returns the read value together with the new counter. -/
def autoIncrementID (counter : Option Nat) : Nat × Option Nat :=
  let id : Nat := match counter with
    | none => 1
    | some v => v
  (id, some ((id + 1) % 2 ^ 64))

/-- `n` successive `autoIncrementID` calls starting from a counter
state, listing the allocated ids in order (the id sequence of `n`
successive successful submits within one pool lifetime). -/
def runAutoIncrement : Nat → Option Nat → List Nat
  | 0, _ => []
  | n + 1, c =>
    let r := autoIncrementID c
    r.1 :: runAutoIncrement n r.2

/-- `addUnbatchedTX`: fails with `ErrDuplicate` when the composite key
`GetOutgoingTxPoolKey(*val.Erc20Fee, val.Id)` is already present,
otherwise stores the transaction under it. -/
def addUnbatchedTX (s : Store) (val : OutgoingTransferTx) : Except GErr Store :=
  let idxKey := GetOutgoingTxPoolKey val.erc20Fee val.id
  if storeHas s idxKey then .error (.duplicate "transaction already in pool")
  else .ok (storeSet s idxKey val)

/-- `removeUnbatchedTX`: fails with `ErrUnknown` when the key is absent,
otherwise deletes it. -/
def removeUnbatchedTX (s : Store) (fee : ERC20Token) (txID : Nat) :
    Except GErr Store :=
  let idxKey := GetOutgoingTxPoolKey fee txID
  if storeHas s idxKey then .ok (storeDelete s idxKey)
  else .error (.unknown "pool transaction")

/-- `GetUnbatchedTxByFeeAndId`: exact key lookup. -/
def GetUnbatchedTxByFeeAndId (s : Store) (fee : ERC20Token) (txID : Nat) :
    Except GErr OutgoingTransferTx :=
  match storeGet s (GetOutgoingTxPoolKey fee txID) with
  | none => .error (.unknown "pool transaction")
  | some tx => .ok tx

/-- `GetUnbatchedTxById`: scans the whole pool in descending key order,
stopping at the first transaction with the requested id. -/
def GetUnbatchedTxById (s : Store) (txID : Nat) : Except GErr OutgoingTransferTx :=
  match (IterateUnbatchedTransactions s allScope).find? (fun e => e.2.id = txID) with
  | none => .error (.unknown "pool transaction")
  | some e => .ok e.2

/-- The tail of `AddToOutgoingPool` after the custody step, shared by the
lock branch and the lock-then-burn branch: allocate the next id, build
the outgoing transaction for the bridge-chain contract (dereferencing
the looked-up contract pointer, a panic when it is nil), and insert it.
The `error` result of `addUnbatchedTX` is discarded by the Go caller, so
on a duplicate key the store is left unchanged and the call still
succeeds. -/
def finishAddToOutgoingPool {B : Type} (st : PoolState B) (bank : B)
    (contractAddr : Option EthAddress) (sender : String)
    (ethReceiver : EthAddress) (amount fee : Coin) :
    Outcome GErr (PoolState B) Nat :=
  let alloc := autoIncrementID st.idCounter
  let nextID := alloc.1
  match contractAddr with
  | none => .panic "nil contract address dereference"
  | some ca =>
    let outgoing : OutgoingTransferTx :=
      ⟨nextID, sender, ethReceiver,
        NewSDKIntERC20Token amount.amount ca,
        NewSDKIntERC20Token fee.amount ca⟩
    let pool' := match addUnbatchedTX st.pool outgoing with
      | .ok p => p
      | .error _ => st.pool
    .ok nextID ⟨pool', alloc.2, bank⟩

/-- `AddToOutgoingPool`: argument guard, registry lookup, custody
transfer (lock for cosmos-originated assets; lock then burn — with a
panic on burn failure — for ethereum-originated ones), id allocation,
record construction and pool insertion.  `ctxIsZero` models
`ctx.IsZero()`. -/
def AddToOutgoingPool {B : Type} (env : Env B) (ctxIsZero : Bool)
    (st : PoolState B) (sender : String) (ethReceiver : EthAddress)
    (amount fee : Coin) : Outcome GErr (PoolState B) Nat :=
  if ctxIsZero || sender = "" || (ethReceiver.ValidateBasic).isSome ||
      !amount.IsValid || !fee.IsValid || fee.denom ≠ amount.denom then
    .err (.invalid "arguments") st
  else
    let totalAmount : Coin := ⟨amount.denom, amount.amount + fee.amount⟩
    let totalInVouchers := [totalAmount]
    match env.denomToERC20Lookup totalAmount.denom with
    | .error e => .err e st
    | .ok (isCosmosOriginated, tokenContract) =>
      let contractAddr : Option EthAddress := match tokenContract.Unwrap with
        | .ok v => v
        | .error _ => none
      if isCosmosOriginated then
        match env.bankKeeper.sendCoinsFromAccountToModule st.bank sender
            ModuleName totalInVouchers with
        | .error e => .err e st
        | .ok b1 =>
          finishAddToOutgoingPool st b1 contractAddr sender ethReceiver amount fee
      else
        match env.bankKeeper.sendCoinsFromAccountToModule st.bank sender
            ModuleName totalInVouchers with
        | .error e => .err e st
        | .ok b1 =>
          match env.bankKeeper.burnCoins b1 ModuleName totalInVouchers with
          | .error _ => .panic "burn failed"
          | .ok b2 =>
            finishAddToOutgoingPool st b2 contractAddr sender ethReceiver amount fee

/-- `RemoveFromOutgoingPoolAndRefund`: argument guard, lookup by id,
sender authorization (the stored bech32 sender must decode — a panic on
a corrupt store — and equal the requester), fee/token contract
consistency check, removal with post-removal re-lookup, and the refund
(unlock for cosmos-originated assets; mint then unlock for
ethereum-originated ones, a mint failure being an ordinary error).  The
stored sender's bech32 decoding is modelled as failing exactly on the
empty string. -/
def RemoveFromOutgoingPoolAndRefund {B : Type} (env : Env B) (ctxIsZero : Bool)
    (st : PoolState B) (txId : Nat) (sender : String) :
    Outcome GErr (PoolState B) Unit :=
  if ctxIsZero || txId < 1 || sender = "" then
    .err (.invalid "arguments") st
  else
    match GetUnbatchedTxById st.pool txId with
    | .error e => .err e st
    | .ok tx =>
      if tx.sender = "" then .panic "Invalid address in store!"
      else if tx.sender ≠ sender then
        .err (.invalid "Sender did not send Id") st
      else if tx.erc20Fee.contract ≠ tx.erc20Token.contract then
        .err (.invalid "Inconsistent tokens to cancel!") st
      else
        match removeUnbatchedTX st.pool tx.erc20Fee txId with
        | .error _ =>
          .err (.invalid "txId not in unbatched index! Must be in a batch!") st
        | .ok pool' =>
          match GetUnbatchedTxByFeeAndId pool' tx.erc20Fee tx.id with
          | .ok _ =>
            .err (.invalid "tx was not fully removed from the pool, a duplicate must exist")
              ⟨pool', st.idCounter, st.bank⟩
          | .error _ =>
            match tx.erc20Token.GravityCoin with
            | none => .panic "invalid contract address"
            | some gcoin =>
              let totalToRefund : Coin := ⟨gcoin.denom, gcoin.amount + tx.erc20Fee.amount⟩
              match NewCoins [totalToRefund] with
              | .panicked m => .panic m
              | .ok totalToRefundCoins =>
                let lookup := env.erc20ToDenomLookup tx.erc20Token.contract
                if lookup.1 then
                  match env.bankKeeper.sendCoinsFromModuleToAccount st.bank
                      ModuleName sender totalToRefundCoins with
                  | .error e => .err e ⟨pool', st.idCounter, st.bank⟩
                  | .ok b1 => .ok () ⟨pool', st.idCounter, b1⟩
                else
                  match env.bankKeeper.mintCoins st.bank ModuleName totalToRefundCoins with
                  | .error e => .err e ⟨pool', st.idCounter, st.bank⟩
                  | .ok b1 =>
                    match env.bankKeeper.sendCoinsFromModuleToAccount b1
                        ModuleName sender totalToRefundCoins with
                    | .error e => .err e ⟨pool', st.idCounter, b1⟩
                    | .ok b2 => .ok () ⟨pool', st.idCounter, b2⟩

/-! ## Fee aggregation -/

/-- `types.BatchFees`: the fee token's contract (reached as
`.Token.Address` in Go, identified here by the address string) and the
accumulated total. -/
structure BatchFees where
  token : String
  totalFees : Int
deriving DecidableEq, Repr

/-- The callback loop of `GetBatchFeeByTokenType`: panic when a visited
fee's contract differs from the requested one, otherwise accumulate the
fee and count, stopping as soon as the incremented count equals
`maxElements` (so a `maxElements` of `0` never stops early). -/
def batchFeeLoop (contractAddr : String) (maxElements : Nat) :
    List OutgoingTransferTx → Int → Nat → Res Int
  | [], total, _ => .ok total
  | tx :: rest, total, txCount =>
    if tx.erc20Fee.contract ≠ contractAddr then .panicked "unexpected fee contract"
    else
      let total' := total + tx.erc20Fee.amount
      let txCount' := txCount + 1
      if txCount' = maxElements then .ok total'
      else batchFeeLoop contractAddr maxElements rest total' txCount'

/-- `GetBatchFeeByTokenType`: iterate the contract's scope in descending
key order, accumulating fees through `batchFeeLoop` starting from a
zero total and a zero count. -/
def GetBatchFeeByTokenType (s : Store) (tokenContractAddr : EthAddress)
    (maxElements : Nat) : Res BatchFees :=
  let txs := (IterateUnbatchedTransactions s (contractScope tokenContractAddr)).map (·.2)
  match batchFeeLoop tokenContractAddr.address maxElements txs 0 0 with
  | .panicked m => .panicked m
  | .ok total => .ok ⟨tokenContractAddr.address, total⟩

/-- Association-list lookup modelling Go map indexing. -/
def assocGet {α : Type} (m : List (String × α)) (k : String) : Option α :=
  (m.find? (fun e => e.1 = k)).map (·.2)

/-- Association-list update modelling Go map assignment: replace in
place when the key exists, append otherwise. -/
def assocSet {α : Type} (m : List (String × α)) (k : String) (v : α) :
    List (String × α) :=
  if m.any (fun e => e.1 = k) then
    m.map (fun e => if e.1 = k then (k, v) else e)
  else m ++ [(k, v)]

/-- Go map indexing of `txCountMap` with the zero value default. -/
def countOf (m : List (String × Nat)) (k : String) : Nat :=
  (assocGet m k).getD 0

/-- `addFeeToMap`: bump the contract's count, then add the fee amount to
the contract's summary (creating it on first sight, with `Token` set to
the fee's contract). -/
def addFeeToMap (fee : ERC20Token) (batchFeesMap : List (String × BatchFees))
    (txCountMap : List (String × Nat)) :
    List (String × BatchFees) × List (String × Nat) :=
  let txCountMap' := assocSet txCountMap fee.contract (countOf txCountMap fee.contract + 1)
  match assocGet batchFeesMap fee.contract with
  | some bf =>
    (assocSet batchFeesMap fee.contract ⟨bf.token, bf.totalFees + fee.amount⟩, txCountMap')
  | none =>
    (assocSet batchFeesMap fee.contract ⟨fee.contract, fee.amount⟩, txCountMap')

/-- The callback loop of `createBatchFees` over the visit sequence. -/
def createBatchFeesLoop (maxElements : Nat) :
    List OutgoingTransferTx → List (String × BatchFees) → List (String × Nat) →
    List (String × BatchFees)
  | [], batchFeesMap, _ => batchFeesMap
  | tx :: rest, batchFeesMap, txCountMap =>
    if countOf txCountMap tx.erc20Fee.contract < maxElements then
      let maps := addFeeToMap tx.erc20Fee batchFeesMap txCountMap
      createBatchFeesLoop maxElements rest maps.1 maps.2
    else
      createBatchFeesLoop maxElements rest batchFeesMap txCountMap

/-- `createBatchFees`: one full reverse scan of the pool, accumulating
at most `maxElements` transfers' fees per contract.  The result models
the Go `map[string]*types.BatchFees` by its association list (whose
traversal order Go does not fix). -/
def createBatchFees (s : Store) (maxElements : Nat) : List (String × BatchFees) :=
  createBatchFeesLoop maxElements
    ((IterateUnbatchedTransactions s allScope).map (·.2)) [] []

/-- The multiset of values of `createBatchFees`' map, in the canonical
association-list order. -/
def createBatchFeesValues (s : Store) (maxElements : Nat) : List BatchFees :=
  (createBatchFees s maxElements).map (·.2)

/-- The non-strict byte-wise order on strings (`¬ b < a`), the
arrangement relation realised by sorting with the strict `<`
comparator. -/
def strLe (a b : String) : Prop := charListLt b.data a.data = false

instance (a b : String) : Decidable (strLe a b) := by
  unfold strLe; exact inferInstance

theorem strLe_total (a b : String) : strLe a b ∨ strLe b a := by
  by_cases h : charListLt b.data a.data = false
  · exact Or.inl h
  · have h' : strLt b a := by simpa [strLt] using h
    have h2 := strLt_asymm h'
    right
    unfold strLe
    simpa [strLt] using h2

theorem strLe_trans {a b c : String} (h₁ : strLe a b) (h₂ : strLe b c) :
    strLe a c := by
  by_cases h : charListLt c.data a.data = false
  · exact h
  · have hca : strLt c a := by simpa [strLt] using h
    have h₁' : charListLt b.data a.data = false := h₁
    have h₂' : charListLt c.data b.data = false := h₂
    have hncb : ¬ strLt c b := by simp [strLt, h₂']
    have hnba : ¬ strLt b a := by simp [strLt, h₁']
    rcases strLt_trichotomy c b with hcb | hcb | hbc
    · exact absurd hcb hncb
    · subst hcb
      exact absurd hca hnba
    · exact absurd (strLt_trans hbc hca) hnba

theorem strLe_antisymm {a b : String} (h₁ : strLe a b) (h₂ : strLe b a) :
    a = b := by
  have := charListLt_eq_of_not h₂ h₁
  cases a; cases b; exact congrArg String.mk this

/-- The comparison used by `GetAllBatchFees`' `sort.Slice` call:
ascending contract address. -/
def tokLe (a b : BatchFees) : Prop := strLe a.token b.token

instance : DecidableRel tokLe := by
  unfold tokLe; exact fun a b => inferInstance

instance : IsTotal BatchFees tokLe := ⟨fun a b => strLe_total a.token b.token⟩

instance : IsTrans BatchFees tokLe := ⟨fun _ _ _ h1 h2 => strLe_trans h1 h2⟩

/-- `GetAllBatchFees`: Go ranges over the `createBatchFees` map in an
unspecified order — modelled by taking the traversed value sequence as
an argument — and then sorts by token contract address ascending.
`sort.Slice` with the strict `<` comparator produces a `tokLe`-sorted
arrangement; on value sequences with pairwise distinct tokens (the only
ones a map can yield) that arrangement is unique, so any correct sorting
algorithm gives the same list. -/
def GetAllBatchFees (traversal : List BatchFees) : List BatchFees :=
  List.insertionSort tokLe traversal

/-! ## Concrete scenario material (used by witnesses and
counterexamples) -/

/-- A valid contract address used by the concrete scenarios. -/
def addrA : EthAddress := ⟨"0xaaaaaaaaaaaaaaaaaaaaaaaaaaaaaaaaaaaaaaaa"⟩

/-- A second valid contract address. -/
def addrB : EthAddress := ⟨"0xbbbbbbbbbbbbbbbbbbbbbbbbbbbbbbbbbbbbbbbb"⟩

/-- A bank keeper whose custody operations always succeed (custody state
is the trivial one). -/
def okBank : BankKeeper Unit :=
  ⟨fun b _ _ _ => .ok b, fun b _ _ => .ok b, fun b _ _ => .ok b,
    fun b _ _ _ => .ok b⟩

/-- Environment for the happy-path scenarios: every denomination is
cosmos-originated with contract `addrA`, custody always succeeds. -/
def envA : Env Unit :=
  ⟨okBank, fun _ => .ok (true, ⟨false, some addrA⟩), fun _ => (true, "token")⟩

/-- The empty initial keeper state. -/
def st0 : PoolState Unit := ⟨[], none, ()⟩

/-- Projects the keeper state out of an outcome (the fallback is unused
on the scenarios below, which never panic). -/
def outState {B : Type} (o : Outcome GErr (PoolState B) Nat)
    (fallback : PoolState B) : PoolState B :=
  match o with
  | .ok _ s => s
  | .err _ s => s
  | .panic _ => fallback

/-- State after submitting a transfer with fee 10 (amount 1). -/
def stFee10 : PoolState Unit :=
  outState (AddToOutgoingPool envA false st0 "alice" addrA ⟨"token", 1⟩ ⟨"token", 10⟩) st0

/-- ... then one with fee 5. -/
def stFee10_5 : PoolState Unit :=
  outState (AddToOutgoingPool envA false stFee10 "alice" addrA ⟨"token", 1⟩ ⟨"token", 5⟩) stFee10

/-- ... then one with fee 20: the submission order of the spec scenario
`10, 5, 20`. -/
def stFee10_5_20 : PoolState Unit :=
  outState (AddToOutgoingPool envA false stFee10_5 "alice" addrA ⟨"token", 1⟩ ⟨"token", 20⟩) stFee10_5

/-- Two submissions with the equal fee 10 (ids 1 and 2). -/
def stTie : PoolState Unit :=
  outState (AddToOutgoingPool envA false stFee10 "alice" addrA ⟨"token", 2⟩ ⟨"token", 10⟩) stFee10

/-- Environment resolving every denomination to contract `addrB`. -/
def envB : Env Unit :=
  ⟨okBank, fun _ => .ok (true, ⟨false, some addrB⟩), fun _ => (true, "token")⟩

/-- A pool holding transfers for two distinct contracts (`addrA` with
fee 10, then `addrB` with fee 7). -/
def stAB : PoolState Unit :=
  outState (AddToOutgoingPool envB false stFee10 "alice" addrB ⟨"coin2", 3⟩ ⟨"coin2", 7⟩) stFee10

/-- A store already holding an entry under the key that the next
submitted transfer with fee 10 would get (fresh id 1): the duplicate-key
situation of `addUnbatchedTX`. -/
def seededPool : Store :=
  [(⟨addrA.address, 10, 1⟩, ⟨1, "bob", addrA, ⟨addrA.address, 7⟩, ⟨addrA.address, 10⟩⟩)]

/-- A store holding a single transfer with fee 5 for contract `addrA`. -/
def cexPool : Store :=
  [(⟨addrA.address, 5, 1⟩, ⟨1, "bob", addrA, ⟨addrA.address, 1⟩, ⟨addrA.address, 5⟩⟩)]

/-- Environment whose mint operation always fails (the asset is
ethereum-originated for the refund path). -/
def mintFailEnv : Env Unit :=
  ⟨⟨fun b _ _ _ => .ok b, fun b _ _ => .ok b,
      fun _ _ _ => .error (.collaborator "no mint"), fun b _ _ _ => .ok b⟩,
    fun _ => .ok (true, ⟨false, some addrA⟩), fun _ => (false, "token")⟩

/-- Environment whose burn operation always fails (the asset is
ethereum-originated for the submit path). -/
def burnFailEnv : Env Unit :=
  ⟨⟨fun b _ _ _ => .ok b, fun _ _ _ => .error (.collaborator "no burn"),
      fun b _ _ => .ok b, fun b _ _ _ => .ok b⟩,
    fun _ => .ok (false, ⟨false, some addrA⟩), fun _ => (true, "token")⟩

/-! ## Store invariants and iteration-order lemmas -/

/-- Every entry sits under the composite key derived from its own fee
and id — the invariant `addUnbatchedTX` establishes (it always stores
`val` under `GetOutgoingTxPoolKey(*val.Erc20Fee, val.Id)`). -/
def WellKeyed (s : Store) : Prop :=
  ∀ e ∈ (s : List (PoolKey × OutgoingTransferTx)),
    e.1 = GetOutgoingTxPoolKey e.2.erc20Fee e.2.id

instance (s : Store) : Decidable (WellKeyed s) := by
  unfold WellKeyed; exact List.decidableBAll _ _

/-- The store's keys are pairwise distinct (a key-value store cannot
hold two entries under one key). -/
def KeysNodup (s : Store) : Prop :=
  ((s : List (PoolKey × OutgoingTransferTx)).map (·.1)).Nodup

instance (s : Store) : Decidable (KeysNodup s) := by
  unfold KeysNodup; exact inferInstance

theorem iterate_sorted (s : Store) (scope : PoolKey → Bool) :
    (IterateUnbatchedTransactions s scope).Sorted entryGE :=
  List.sorted_insertionSort entryGE _

theorem iterate_perm (s : Store) (scope : PoolKey → Bool) :
    List.Perm (IterateUnbatchedTransactions s scope)
      ((s : List (PoolKey × OutgoingTransferTx)).filter (fun e => scope e.1)) :=
  List.perm_insertionSort entryGE _

theorem iterate_mem {s : Store} {scope : PoolKey → Bool}
    {e : PoolKey × OutgoingTransferTx}
    (h : e ∈ IterateUnbatchedTransactions s scope) :
    e ∈ (s : List (PoolKey × OutgoingTransferTx)) ∧ scope e.1 = true := by
  have hmem := (iterate_perm s scope).subset h
  have h2 := List.mem_filter.mp hmem
  exact ⟨h2.1, h2.2⟩

theorem iterate_keysNodup {s : Store} (scope : PoolKey → Bool)
    (hd : KeysNodup s) :
    ((IterateUnbatchedTransactions s scope).map (·.1)).Nodup := by
  have hsub : List.Sublist (((s : List (PoolKey × OutgoingTransferTx)).filter
      (fun e => scope e.1)).map (·.1))
      ((s : List (PoolKey × OutgoingTransferTx)).map (·.1)) :=
    (List.filter_sublist _).map _
  exact (((iterate_perm s scope).map (·.1)).symm).nodup (hd.sublist hsub)

/-- The fee-priority presentation order on transfers: fee-descending,
ties broken by id-descending (`a` is listed before `b`). -/
def feePriorityGT (a b : OutgoingTransferTx) : Prop :=
  b.erc20Fee.amount < a.erc20Fee.amount ∨
    (b.erc20Fee.amount = a.erc20Fee.amount ∧ b.id < a.id)

instance (a b : OutgoingTransferTx) : Decidable (feePriorityGT a b) := by
  unfold feePriorityGT; exact inferInstance

/-- Within one contract's scope, well-keyed distinct-key entries are
visited strictly in fee-priority order. -/
theorem byContract_pairwise (s : Store) (c : EthAddress)
    (hk : WellKeyed s) (hd : KeysNodup s) :
    (GetUnbatchedTransactionsByContract s c).Pairwise feePriorityGT := by
  have h1 : (IterateUnbatchedTransactions s (contractScope c)).Sorted entryGE :=
    iterate_sorted s (contractScope c)
  have h2 : (IterateUnbatchedTransactions s (contractScope c)).Pairwise
      (fun a b => a.1 ≠ b.1) :=
    List.pairwise_map.mp (iterate_keysNodup (contractScope c) hd)
  have h3 := h1.and h2
  refine List.pairwise_map.mpr (h3.imp_of_mem ?_)
  intro a b ha hb hab
  obtain ⟨hge, hne⟩ := hab
  have hamem := iterate_mem ha
  have hbmem := iterate_mem hb
  have hac : a.1.contract = c.address := by
    have := hamem.2
    simpa [contractScope] using this
  have hbc : b.1.contract = c.address := by
    have := hbmem.2
    simpa [contractScope] using this
  have hstrict := PoolKey.le_ne_same_contract (hge : PoolKey.le b.1 a.1)
    (fun h => hne h.symm) (hbc.trans hac.symm)
  have hka := hk a hamem.1
  have hkb := hk b hbmem.1
  unfold GetOutgoingTxPoolKey at hka hkb
  rw [hka, hkb] at hstrict
  exact hstrict

/-! ## Fee-map invariants and sort determinism -/

/-- Invariant of the Go `map[string]*BatchFees`: pairwise distinct keys,
and every stored summary's `Token` equals its key. -/
def GoodMap (m : List (String × BatchFees)) : Prop :=
  (m.map (·.1)).Nodup ∧ ∀ e ∈ m, e.2.token = e.1

theorem assocSet_map_keys {α : Type} (m : List (String × α)) (k : String) (v : α) :
    (assocSet m k v).map (·.1) =
      if m.any (fun e => e.1 = k) then m.map (·.1) else m.map (·.1) ++ [k] := by
  unfold assocSet
  split
  · simp only [List.map_map]
    refine List.map_congr_left ?_
    intro e _
    by_cases h : e.1 = k <;> simp [h]
  · simp

theorem assocSet_good {m : List (String × BatchFees)} {k : String} {v : BatchFees}
    (hm : GoodMap m) (hv : v.token = k) : GoodMap (assocSet m k v) := by
  constructor
  · rw [assocSet_map_keys]
    split
    · exact hm.1
    · next h =>
      have hk : k ∉ m.map (·.1) := by
        intro hmem
        obtain ⟨e, he, hek⟩ := List.mem_map.mp hmem
        exact (List.any_eq_false.mp (Bool.not_eq_true _ ▸ h) e he) (by simpa using hek)
      refine List.Nodup.append hm.1 (List.nodup_singleton _) ?_
      simpa [List.disjoint_singleton] using hk
  · intro e he
    unfold assocSet at he
    split at he
    · obtain ⟨e', he', heq⟩ := List.mem_map.mp he
      by_cases h : e'.1 = k
      · simp only [h, if_pos rfl] at heq
        rw [← heq]
        exact hv
      · simp only [if_neg h] at heq
        rw [← heq]
        exact hm.2 e' he'
    · rcases List.mem_append.mp he with h | h
      · exact hm.2 e h
      · simp only [List.mem_singleton] at h
        rw [h]
        exact hv

theorem addFeeToMap_good {fee : ERC20Token} {m : List (String × BatchFees)}
    {cnt : List (String × Nat)} (hm : GoodMap m) :
    GoodMap (addFeeToMap fee m cnt).1 := by
  unfold addFeeToMap
  cases hfind : assocGet m fee.contract with
  | none => exact assocSet_good hm rfl
  | some bf =>
    have hbf : bf.token = fee.contract := by
      unfold assocGet at hfind
      obtain ⟨e, hfe, hbe⟩ := Option.map_eq_some'.mp hfind
      have hmem := List.mem_of_find?_eq_some hfe
      have hpred : e.1 = fee.contract := by simpa using List.find?_some hfe
      rw [← hbe, hm.2 e hmem, hpred]
    exact assocSet_good hm hbf

theorem createBatchFeesLoop_good (maxElements : Nat)
    (txs : List OutgoingTransferTx) (m : List (String × BatchFees))
    (cnt : List (String × Nat)) (hm : GoodMap m) :
    GoodMap (createBatchFeesLoop maxElements txs m cnt) := by
  induction txs generalizing m cnt with
  | nil => exact hm
  | cons tx rest ih =>
    unfold createBatchFeesLoop
    split
    · exact ih _ _ (addFeeToMap_good hm)
    · exact ih _ _ hm

theorem createBatchFees_good (s : Store) (maxElements : Nat) :
    GoodMap (createBatchFees s maxElements) :=
  createBatchFeesLoop_good _ _ _ _ ⟨List.nodup_nil, by simp⟩

theorem createBatchFeesValues_tokens_nodup (s : Store) (maxElements : Nat) :
    ((createBatchFeesValues s maxElements).map BatchFees.token).Nodup := by
  have hg := createBatchFees_good s maxElements
  unfold createBatchFeesValues
  rw [List.map_map]
  have : (createBatchFees s maxElements).map (BatchFees.token ∘ (·.2)) =
      (createBatchFees s maxElements).map (·.1) :=
    List.map_congr_left fun e he => hg.2 e he
  rw [this]
  exact hg.1

/-- Two `tokLe`-sorted lists that are permutations of each other and
have pairwise distinct tokens are equal: the sorted arrangement of a
distinct-token multiset is unique, whatever sorting algorithm (or map
traversal order) produced it. -/
theorem sorted_perm_eq_of_tokens_nodup {l₁ l₂ : List BatchFees}
    (hp : List.Perm l₁ l₂) (h₁ : l₁.Sorted tokLe) (h₂ : l₂.Sorted tokLe)
    (hd : (l₁.map BatchFees.token).Nodup) : l₁ = l₂ := by
  induction l₁ generalizing l₂ with
  | nil => exact hp.nil_eq
  | cons a t ih =>
    cases l₂ with
    | nil => exact absurd hp.eq_nil (by simp)
    | cons b t₂ =>
      rw [List.map_cons] at hd
      have hab : a = b := by
        have hamem : a ∈ b :: t₂ := hp.subset (List.mem_cons_self a t)
        rcases List.mem_cons.mp hamem with h | h
        · exact h
        · have hbmem : b ∈ a :: t := hp.symm.subset (List.mem_cons_self b t₂)
          rcases List.mem_cons.mp hbmem with h' | h'
          · exact h'.symm
          · have hle1 : tokLe a b := List.rel_of_sorted_cons h₁ b h'
            have hle2 : tokLe b a := List.rel_of_sorted_cons h₂ a h
            have heq : a.token = b.token := strLe_antisymm hle1 hle2
            have hmem : a.token ∈ t.map BatchFees.token :=
              List.mem_map.mpr ⟨b, h', heq.symm⟩
            exact absurd hmem (List.nodup_cons.mp hd).1
      subst hab
      have ht : t = t₂ := by
        exact ih hp.cons_inv h₁.of_cons h₂.of_cons (List.nodup_cons.mp hd).2
      rw [ht]

/-! ## The capped fee-summing loop -/

theorem batchFeeLoop_eq_take (c : String) (maxElements : Nat)
    (l : List OutgoingTransferTx) (total : Int) (cnt : Nat)
    (hc : ∀ tx ∈ l, tx.erc20Fee.contract = c) (hcnt : cnt < maxElements) :
    batchFeeLoop c maxElements l total cnt =
      .ok (total + ((l.map (fun t => t.erc20Fee.amount)).take (maxElements - cnt)).sum) := by
  induction l generalizing total cnt with
  | nil => simp [batchFeeLoop]
  | cons tx rest ih =>
    have hctx : tx.erc20Fee.contract = c := hc tx (List.mem_cons_self _ _)
    unfold batchFeeLoop
    rw [if_neg (by simp [hctx])]
    by_cases hstop : cnt + 1 = maxElements
    · rw [if_pos hstop]
      have h1 : maxElements - cnt = 1 := by omega
      simp [h1]
    · rw [if_neg hstop]
      have hlt : cnt + 1 < maxElements := by omega
      rw [ih (total + tx.erc20Fee.amount) (cnt + 1)
        (fun t ht => hc t (List.mem_cons_of_mem _ ht)) hlt]
      have h2 : maxElements - cnt = (maxElements - (cnt + 1)) + 1 := by omega
      rw [h2]
      simp only [List.map_cons, List.take_succ_cons, List.sum_cons]
      congr 1
      ring

/-! ## Id-allocator run lemmas -/

theorem runAutoIncrement_some (n : Nat) (v : Nat) (hv : 0 < v)
    (hn : v + n ≤ 2 ^ 64) :
    runAutoIncrement n (some v) = (List.range n).map (v + ·) := by
  induction n generalizing v with
  | zero => simp [runAutoIncrement]
  | succ n ih =>
    unfold runAutoIncrement autoIncrementID
    dsimp only
    by_cases hwrap : v + 1 = 2 ^ 64
    · have hn0 : n = 0 := by omega
      subst hn0
      simp [runAutoIncrement, List.range_succ]
    · have hmod : (v + 1) % 2 ^ 64 = v + 1 := Nat.mod_eq_of_lt (by omega)
      rw [hmod, ih (v + 1) (by omega) (by omega)]
      rw [List.range_succ_eq_map]
      simp only [List.map_cons, List.map_map, Nat.add_zero]
      congr 1
      refine List.map_congr_left ?_
      intro i _
      simp [Function.comp]
      omega

theorem runAutoIncrement_fresh (n : Nat) (hn : n < 2 ^ 64) :
    runAutoIncrement n none = (List.range n).map (· + 1) := by
  cases n with
  | zero => simp [runAutoIncrement]
  | succ n =>
    unfold runAutoIncrement autoIncrementID
    dsimp only
    have h2 : (1 + 1) % 2 ^ 64 = 2 := by norm_num
    rw [h2, runAutoIncrement_some n 2 (by omega) (by omega)]
    rw [List.range_succ_eq_map]
    simp only [List.map_cons, List.map_map, Nat.zero_add]
    congr 1
    refine List.map_congr_left ?_
    intro i _
    simp [Function.comp]
    omega

theorem finishAdd_ok {B : Type} {st : PoolState B} {b : B}
    {ca : Option EthAddress} {sender : String} {recv : EthAddress}
    {amount fee : Coin} {id : Nat} {st' : PoolState B}
    (h : finishAddToOutgoingPool st b ca sender recv amount fee = .ok id st') :
    id = (autoIncrementID st.idCounter).1 ∧
    st'.idCounter = (autoIncrementID st.idCounter).2 := by
  unfold finishAddToOutgoingPool at h
  cases ca with
  | none => simp at h
  | some a =>
    dsimp only at h
    simp only [Outcome.ok.injEq] at h
    exact ⟨h.1.symm, by rw [← h.2]⟩

/-! ## Claim theorems -/

/-- C1: for every pool state and contract, the scoped unbatched-transaction
query (`GetUnbatchedTransactionsByContract` / the contract-scoped
iteration) yields the transfers in fee-descending order with ties broken
by id-descending, for well-keyed stores with distinct keys; in
particular, after submitting three transfers for one contract with fees
10, 5, 20 in that order the query returns them ordered 20, 10, 5, and of
two equal-fee transfers the one with the higher id comes first. -/
theorem C1_contract_iteration_fee_priority :
    (∀ (s : Store) (c : EthAddress), WellKeyed s → KeysNodup s →
      (GetUnbatchedTransactionsByContract s c).Pairwise feePriorityGT) ∧
    (GetUnbatchedTransactionsByContract stFee10_5_20.pool addrA).map
      (fun t => t.erc20Fee.amount) = [20, 10, 5] ∧
    (GetUnbatchedTransactionsByContract stTie.pool addrA).map
      (fun t => t.id) = [2, 1] :=
  ⟨byContract_pairwise, by decide, by decide⟩

/-- Witness for C1 at a concrete pool: the three-transfer scenario store
satisfies the hypotheses and its scoped query is fee-priority sorted. -/
theorem C1_contract_iteration_fee_priority_witness :
    (GetUnbatchedTransactionsByContract stFee10_5_20.pool addrA).Pairwise
      feePriorityGT :=
  C1_contract_iteration_fee_priority.1 stFee10_5_20.pool addrA
    (by decide) (by decide)

/-- C9 counterexample: two `ERC20Token`s with the same (valid) contract
whose amounts sum to `2^64` make `Add` panic (`sum.IsUint64()` fails)
instead of returning the exact arbitrary-precision sum the claim
promises for every same-contract pair. -/
theorem C9_add_overflow_counterexample :
    ERC20Token.Add ⟨addrA.address, 2 ^ 63⟩ ⟨addrA.address, 2 ^ 63⟩ =
      .panicked "invalid amount" ∧
    ERC20Token.Add ⟨addrA.address, 2 ^ 63⟩ ⟨addrA.address, 2 ^ 63⟩ ≠
      .ok ⟨addrA.address, 2 ^ 63 + 2 ^ 63⟩ := by
  constructor
  · decide
  · decide

/-- C9 (amended): for two `ERC20Token`s with identical *valid* contracts
whose amounts sum to a value fitting in a uint64, `Add` returns the
token with that contract and the exact sum; for two tokens with valid
but differing contracts it raises a programming-error-level panic. -/
theorem C9_add_same_contract :
    (∀ e o : ERC20Token, ValidateEthAddress e.contract = none →
      e.contract = o.contract → 0 ≤ e.amount + o.amount →
      e.amount + o.amount < 2 ^ 64 →
      ERC20Token.Add e o = .ok ⟨e.contract, e.amount + o.amount⟩) ∧
    (∀ e o : ERC20Token, ValidateEthAddress e.contract = none →
      ValidateEthAddress o.contract = none → e.contract ≠ o.contract →
      ERC20Token.Add e o = .panicked "inconsistent contract addresses") := by
  constructor
  · intro e o hv hc h0 hlt
    have hvo : ValidateEthAddress o.contract = none := hc ▸ hv
    simp [ERC20Token.Add, hv, hvo, hc, h0]
    omega
  · intro e o hv hvo hne
    simp [ERC20Token.Add, hv, hvo, hne]

/-- Witness for C9 (amended) at concrete tokens: `3 + 4 = 7` on a shared
valid contract, and a panic on differing valid contracts. -/
theorem C9_add_same_contract_witness :
    ERC20Token.Add ⟨addrA.address, 3⟩ ⟨addrA.address, 4⟩ =
      .ok ⟨addrA.address, 7⟩ ∧
    ERC20Token.Add ⟨addrA.address, 3⟩ ⟨addrB.address, 4⟩ =
      .panicked "inconsistent contract addresses" :=
  ⟨by
    have h := C9_add_same_contract.1 ⟨addrA.address, 3⟩ ⟨addrA.address, 4⟩
      (by decide) rfl (by decide) (by decide)
    simpa using h,
   C9_add_same_contract.2 ⟨addrA.address, 3⟩ ⟨addrB.address, 4⟩
    (by decide) (by decide) (by decide)⟩

/-- C10: `EthAddress.SetAddress` and `OptionalEthAddress.SetEthAddress`
have value receivers, so a call leaves the caller's value unchanged
(the method mutates only its own copy — the third conjunct shows the
body does assign the copy, so the immutability comes from the receiver
semantics, not from the body being a no-op); hence an `EthAddress`
obtained from `NewEthAddress` is never modified through the public
interface. -/
theorem C10_set_address_leaves_caller_unchanged :
    (∀ (ea : EthAddress) (s : String),
      (callOnCopy (fun e => EthAddress.SetAddress e s) ea).1 = ea) ∧
    (∀ (o : OptionalEthAddress) (a : Option EthAddress),
      (callOnCopy (fun w => OptionalEthAddress.SetEthAddress w a) o).1 = o) ∧
    (EthAddress.SetAddress ⟨""⟩ addrA.address).1 = addrA :=
  ⟨fun _ _ => rfl, fun _ _ => rfl, by decide⟩

/-- C4 counterexample: with `maxElements = 0` the stop condition
`txCount == int(maxElements)` (checked only after the count is
incremented to at least 1) never fires, so over a pool holding one
transfer with fee 5 the function returns 5 — not the sum of at most 0
transfers' fees, which the claim (quantified over *every* `maxElements`)
demands. -/
theorem C4_zero_cap_counterexample :
    GetBatchFeeByTokenType cexPool addrA 0 = .ok ⟨addrA.address, 5⟩ ∧
    GetBatchFeeByTokenType cexPool addrA 0 ≠
      .ok ⟨addrA.address, (((GetUnbatchedTransactionsByContract cexPool addrA).map
        (fun t => t.erc20Fee.amount)).take 0).sum⟩ := by
  constructor
  · decide
  · decide

/-- C4 (amended): for every well-keyed pool, contract and
`maxElements ≥ 1`, `GetBatchFeeByTokenType` iterates the contract's
transfers in fee-descending order and returns the sum of the fees of at
most `maxElements` transfers (the leading ones of the scoped query),
stopping as soon as the cap is reached; over pending fees `{20,10,5}` it
returns 30 for `maxElements = 2` and 35 for `maxElements = 10` (with
`maxElements = 0` every pending transfer is summed instead). -/
theorem C4_batch_fee_cap :
    (∀ (s : Store) (c : EthAddress) (maxElements : Nat), WellKeyed s →
      1 ≤ maxElements →
      GetBatchFeeByTokenType s c maxElements =
        .ok ⟨c.address, (((GetUnbatchedTransactionsByContract s c).map
          (fun t => t.erc20Fee.amount)).take maxElements).sum⟩) ∧
    GetBatchFeeByTokenType stFee10_5_20.pool addrA 2 = .ok ⟨addrA.address, 30⟩ ∧
    GetBatchFeeByTokenType stFee10_5_20.pool addrA 10 = .ok ⟨addrA.address, 35⟩ := by
  refine ⟨?_, by decide, by decide⟩
  intro s c maxElements hk hmax
  have hmem : ∀ tx ∈ (IterateUnbatchedTransactions s (contractScope c)).map (·.2),
      tx.erc20Fee.contract = c.address := by
    intro tx htx
    obtain ⟨e, he, rfl⟩ := List.mem_map.mp htx
    have h1 := iterate_mem he
    have h2 : e.1.contract = c.address := by simpa [contractScope] using h1.2
    have h3 := hk e h1.1
    unfold GetOutgoingTxPoolKey at h3
    rw [h3] at h2
    exact h2
  unfold GetBatchFeeByTokenType
  dsimp only
  rw [batchFeeLoop_eq_take c.address maxElements _ 0 0 hmem (by omega)]
  simp [GetUnbatchedTransactionsByContract]

/-- Witness for C4 (amended) at a concrete pool and cap: the take-based
formula applies to the three-transfer scenario with cap 2. -/
theorem C4_batch_fee_cap_witness :
    GetBatchFeeByTokenType stFee10_5_20.pool addrA 2 =
      .ok ⟨addrA.address,
        (((GetUnbatchedTransactionsByContract stFee10_5_20.pool addrA).map
          (fun t => t.erc20Fee.amount)).take 2).sum⟩ :=
  C4_batch_fee_cap.1 stFee10_5_20.pool addrA 2 (by decide) (by decide)

/-- C6 counterexample: zero amounts pass `sdk.Coin.IsValid` (which only
requires a valid denomination and a *non-negative* amount), so a submit
with zero amount and fee is **not** rejected with the InvalidArgument
fault the claim requires — it runs to completion and returns id 1. -/
theorem C6_zero_amount_counterexample :
    AddToOutgoingPool envA false st0 "alice" addrA ⟨"token", 0⟩ ⟨"token", 0⟩ =
      .ok 1 ⟨[(⟨addrA.address, 0, 1⟩,
        ⟨1, "alice", addrA, ⟨addrA.address, 0⟩, ⟨addrA.address, 0⟩⟩)], some 2, ()⟩ ∧
    AddToOutgoingPool envA false st0 "alice" addrA ⟨"token", 0⟩ ⟨"token", 0⟩ ≠
      .err (.invalid "arguments") st0 := by
  constructor
  · decide
  · decide

/-- C6 (amended): a submit whose execution context is invalid, whose
sender is empty, whose destination fails address validation, or whose
amount/fee are malformed (bad denomination or negative amount) or of
differing denominations returns the InvalidArgument fault and leaves the
whole keeper state — store, id counter and custody — unchanged (zero
amounts, however, pass the guard). -/
theorem C6_invalid_arguments_no_mutation :
    ∀ (B : Type) (env : Env B) (ctxIsZero : Bool) (st : PoolState B)
      (sender : String) (ethReceiver : EthAddress) (amount fee : Coin),
      (ctxIsZero = true ∨ sender = "" ∨ (ethReceiver.ValidateBasic).isSome = true ∨
        amount.IsValid = false ∨ fee.IsValid = false ∨ fee.denom ≠ amount.denom) →
      AddToOutgoingPool env ctxIsZero st sender ethReceiver amount fee =
        .err (.invalid "arguments") st := by
  intro B env ctxIsZero st sender ethReceiver amount fee h
  rcases h with h | h | h | h | h | h <;>
    simp [AddToOutgoingPool, h]

/-- Witness for C6 (amended) at a concrete call: an empty sender is
rejected with no state change. -/
theorem C6_invalid_arguments_no_mutation_witness :
    AddToOutgoingPool envA false st0 "" addrA ⟨"token", 1⟩ ⟨"token", 1⟩ =
      .err (.invalid "arguments") st0 :=
  C6_invalid_arguments_no_mutation Unit envA false st0 "" addrA
    ⟨"token", 1⟩ ⟨"token", 1⟩ (Or.inr (Or.inl rfl))

/-- C7: cancelling a pooled transfer with a requester different from the
stored (decodable) sender fails with the unauthorized Invalid fault and
returns the keeper state — pool, id counter and custody — exactly as it
was. -/
theorem C7_unauthorized_cancel_no_mutation :
    ∀ (B : Type) (env : Env B) (st : PoolState B) (txId : Nat)
      (sender : String) (tx : OutgoingTransferTx),
      1 ≤ txId → sender ≠ "" →
      GetUnbatchedTxById st.pool txId = .ok tx →
      tx.sender ≠ "" → tx.sender ≠ sender →
      RemoveFromOutgoingPoolAndRefund env false st txId sender =
        .err (.invalid "Sender did not send Id") st := by
  intro B env st txId sender tx h1 h2 hlookup h3 h4
  have hlt : ¬ txId < 1 := by omega
  simp [RemoveFromOutgoingPoolAndRefund, hlt, h2, hlookup, h3, h4]

/-- Witness for C7 at a concrete pool: `"mallory"` cannot cancel
`"alice"`'s transfer, and the state is returned unchanged. -/
theorem C7_unauthorized_cancel_no_mutation_witness :
    RemoveFromOutgoingPoolAndRefund envA false stFee10 1 "mallory" =
      .err (.invalid "Sender did not send Id") stFee10 :=
  C7_unauthorized_cancel_no_mutation Unit envA stFee10 1 "mallory"
    ⟨1, "alice", addrA, ⟨addrA.address, 1⟩, ⟨addrA.address, 10⟩⟩
    (by decide) (by decide) (by decide) (by decide) (by decide)

/-- C5 counterexample: on a store already holding an entry under the
composite key of the freshly allocated id, the insertion helper does
produce the Duplicate fault, but `AddToOutgoingPool` discards
`addUnbatchedTX`'s result (line `k.addUnbatchedTX(ctx, outgoing)`), so
the submit *succeeds* — returning the fresh id with the store unchanged —
instead of failing with a Duplicate fault as the claim states. -/
theorem C5_duplicate_discarded_counterexample :
    AddToOutgoingPool envA false ⟨seededPool, none, ()⟩ "alice" addrA
      ⟨"token", 1⟩ ⟨"token", 10⟩ = .ok 1 ⟨seededPool, some 2, ()⟩ ∧
    addUnbatchedTX seededPool
      ⟨1, "alice", addrA, ⟨addrA.address, 1⟩, ⟨addrA.address, 10⟩⟩ =
      .error (.duplicate "transaction already in pool") := by
  constructor
  · decide
  · decide

/-- C5 (amended): when the composite pool key for the freshly allocated
id already exists, the insertion helper `addUnbatchedTX` fails with the
Duplicate fault and leaves the store untouched — but `AddToOutgoingPool`
ignores that error, so the submit itself still returns the fresh id
successfully (with the store unchanged and the counter bumped). -/
theorem C5_duplicate_insertion_discarded :
    (∀ (s : Store) (val : OutgoingTransferTx),
      storeHas s (GetOutgoingTxPoolKey val.erc20Fee val.id) = true →
      addUnbatchedTX s val = .error (.duplicate "transaction already in pool")) ∧
    (∀ (B : Type) (env : Env B) (st : PoolState B) (sender : String)
      (ethReceiver : EthAddress) (amount fee : Coin) (ca : EthAddress) (b1 : B),
      sender ≠ "" → (ethReceiver.ValidateBasic).isSome = false →
      amount.IsValid = true → fee.IsValid = true → fee.denom = amount.denom →
      env.denomToERC20Lookup amount.denom = .ok (true, ⟨false, some ca⟩) →
      env.bankKeeper.sendCoinsFromAccountToModule st.bank sender ModuleName
        [⟨amount.denom, amount.amount + fee.amount⟩] = .ok b1 →
      storeHas st.pool (GetOutgoingTxPoolKey (NewSDKIntERC20Token fee.amount ca)
        (autoIncrementID st.idCounter).1) = true →
      AddToOutgoingPool env false st sender ethReceiver amount fee =
        .ok (autoIncrementID st.idCounter).1
          ⟨st.pool, (autoIncrementID st.idCounter).2, b1⟩) := by
  constructor
  · intro s val h
    simp [addUnbatchedTX, h]
  · intro B env st sender ethReceiver amount fee ca b1 hs hr ha hf hd hlook hsend hdup
    simp [AddToOutgoingPool, hs, hr, ha, hf, hd, hlook, hsend,
      OptionalEthAddress.Unwrap, finishAddToOutgoingPool, addUnbatchedTX, hdup]

/-- Witness for C5 (amended) at a concrete seeded store: the helper
reports the duplicate, and the submit still returns id 1 with the store
unchanged. -/
theorem C5_duplicate_insertion_discarded_witness :
    addUnbatchedTX seededPool
      ⟨1, "carol", addrA, ⟨addrA.address, 3⟩, ⟨addrA.address, 10⟩⟩ =
      .error (.duplicate "transaction already in pool") ∧
    AddToOutgoingPool envA false ⟨seededPool, none, ()⟩ "carol" addrA
      ⟨"token", 3⟩ ⟨"token", 10⟩ = .ok 1 ⟨seededPool, some 2, ()⟩ := by
  constructor
  · exact C5_duplicate_insertion_discarded.1 seededPool
      ⟨1, "carol", addrA, ⟨addrA.address, 3⟩, ⟨addrA.address, 10⟩⟩ (by decide)
  · have h := C5_duplicate_insertion_discarded.2 Unit envA
      ⟨seededPool, none, ()⟩ "carol" addrA ⟨"token", 3⟩ ⟨"token", 10⟩ addrA ()
      (by decide) (by decide) (by decide) (by decide) rfl rfl rfl (by decide)
    simpa using h

/-- C2: submit and cancel treat custody failures asymmetrically.  If the
burn of a bridge-originated asset fails after the lock
(`SendCoinsFromAccountToModule`) has already succeeded, submit panics —
aborting the entire enclosing state transition (no resulting state) —
whereas in cancel a failure of the mint step for a bridge-originated
asset is returned as an ordinary propagated error whose resulting state
carries the *unchanged* custody (bank) component. -/
theorem C2_custody_failure_asymmetry :
    (∀ (B : Type) (env : Env B) (st : PoolState B) (sender : String)
      (ethReceiver : EthAddress) (amount fee : Coin)
      (tc : OptionalEthAddress) (b1 : B) (e : GErr),
      sender ≠ "" → (ethReceiver.ValidateBasic).isSome = false →
      amount.IsValid = true → fee.IsValid = true → fee.denom = amount.denom →
      env.denomToERC20Lookup amount.denom = .ok (false, tc) →
      env.bankKeeper.sendCoinsFromAccountToModule st.bank sender ModuleName
        [⟨amount.denom, amount.amount + fee.amount⟩] = .ok b1 →
      env.bankKeeper.burnCoins b1 ModuleName
        [⟨amount.denom, amount.amount + fee.amount⟩] = .error e →
      AddToOutgoingPool env false st sender ethReceiver amount fee =
        .panic "burn failed") ∧
    (∀ (B : Type) (env : Env B) (st : PoolState B) (txId : Nat)
      (sender : String) (tx : OutgoingTransferTx) (pool' : Store)
      (gcoin : Coin) (coins : List Coin) (e : GErr),
      1 ≤ txId → sender ≠ "" →
      GetUnbatchedTxById st.pool txId = .ok tx →
      tx.sender = sender →
      tx.erc20Fee.contract = tx.erc20Token.contract →
      removeUnbatchedTX st.pool tx.erc20Fee txId = .ok pool' →
      GetUnbatchedTxByFeeAndId pool' tx.erc20Fee tx.id =
        .error (.unknown "pool transaction") →
      tx.erc20Token.GravityCoin = some gcoin →
      NewCoins [⟨gcoin.denom, gcoin.amount + tx.erc20Fee.amount⟩] = .ok coins →
      (env.erc20ToDenomLookup tx.erc20Token.contract).1 = false →
      env.bankKeeper.mintCoins st.bank ModuleName coins = .error e →
      RemoveFromOutgoingPoolAndRefund env false st txId sender =
        .err e ⟨pool', st.idCounter, st.bank⟩) := by
  constructor
  · intro B env st sender ethReceiver amount fee tc b1 e hs hr ha hf hd hlook hsend hburn
    simp [AddToOutgoingPool, hs, hr, ha, hf, hd, hlook, hsend, hburn]
  · intro B env st txId sender tx pool' gcoin coins e h1 h2 hlookup hts hcons
      hremove hgone hgc hnew hreg hmint
    have hlt : ¬ txId < 1 := by omega
    have hts' : tx.sender ≠ "" := by rw [hts]; exact h2
    simp [RemoveFromOutgoingPoolAndRefund, hlt, h2, hlookup, hts, hts', hcons,
      hremove, hgone, hgc, hnew, hreg, hmint]

/-- Witness for C2 at concrete environments: a failing burn makes the
concrete submit panic, and a failing mint makes the concrete cancel
return the error with custody untouched. -/
theorem C2_custody_failure_asymmetry_witness :
    AddToOutgoingPool burnFailEnv false st0 "alice" addrA
      ⟨"token", 1⟩ ⟨"token", 10⟩ = .panic "burn failed" ∧
    RemoveFromOutgoingPoolAndRefund mintFailEnv false stFee10 1 "alice" =
      .err (.collaborator "no mint") ⟨[], some 2, ()⟩ := by
  constructor
  · exact C2_custody_failure_asymmetry.1 Unit burnFailEnv st0 "alice" addrA
      ⟨"token", 1⟩ ⟨"token", 10⟩ ⟨false, some addrA⟩ () (.collaborator "no burn")
      (by decide) (by decide) (by decide) (by decide) rfl rfl rfl rfl
  · have h := C2_custody_failure_asymmetry.2 Unit mintFailEnv stFee10 1 "alice"
      ⟨1, "alice", addrA, ⟨addrA.address, 1⟩, ⟨addrA.address, 10⟩⟩ []
      ⟨GravityDenom addrA, 1⟩ [⟨GravityDenom addrA, 11⟩] (.collaborator "no mint")
      (by decide) (by decide) (by decide) (by decide) (by decide)
      (by decide) (by decide) (by decide) (by decide) (by decide) rfl
    simpa using h

/-- C8: the id allocator reads the persisted counter (defaulting to 1
when absent), returns the current value, and persists `value + 1`
(uint64 arithmetic); consequently the ids of `n < 2^64` successive
allocations within one pool lifetime are `1, 2, …, n` — strictly
increasing from 1 with no id reused — and every successful submit's
returned id is exactly the allocator's read value, with the bumped
counter persisted in the resulting state. -/
theorem C8_monotonic_id_allocation :
    autoIncrementID none = (1, some 2) ∧
    (∀ v : Nat, autoIncrementID (some v) = (v, some ((v + 1) % 2 ^ 64))) ∧
    (∀ n : Nat, n < 2 ^ 64 →
      runAutoIncrement n none = (List.range n).map (· + 1) ∧
      (runAutoIncrement n none).Pairwise (· < ·)) ∧
    (∀ (B : Type) (env : Env B) (ctxIsZero : Bool) (st : PoolState B)
      (sender : String) (ethReceiver : EthAddress) (amount fee : Coin)
      (id : Nat) (st' : PoolState B),
      AddToOutgoingPool env ctxIsZero st sender ethReceiver amount fee =
        .ok id st' →
      id = (autoIncrementID st.idCounter).1 ∧
      st'.idCounter = (autoIncrementID st.idCounter).2) := by
  refine ⟨rfl, fun v => rfl, ?_, ?_⟩
  · intro n hn
    have heq := runAutoIncrement_fresh n hn
    refine ⟨heq, ?_⟩
    rw [heq]
    refine List.pairwise_map.mpr ?_
    exact (List.pairwise_lt_range n).imp (fun h => by omega)
  · intro B env ctxIsZero st sender ethReceiver amount fee id st' h
    unfold AddToOutgoingPool at h
    split at h
    · simp at h
    · dsimp only at h
      split at h
      · simp at h
      · next iso tc heq =>
        split at h
        · split at h
          · simp at h
          · exact finishAdd_ok h
        · split at h
          · simp at h
          · split at h
            · simp at h
            · exact finishAdd_ok h

/-- Witness for C8 at concrete inputs: three allocations from a fresh
counter give `[1, 2, 3]` strictly increasing, and the concrete submit
that produced `stFee10` returned the allocator's value. -/
theorem C8_monotonic_id_allocation_witness :
    (runAutoIncrement 3 none = (List.range 3).map (· + 1) ∧
      (runAutoIncrement 3 none).Pairwise (· < ·)) ∧
    (1 = (autoIncrementID st0.idCounter).1 ∧
      stFee10.idCounter = (autoIncrementID st0.idCounter).2) :=
  ⟨C8_monotonic_id_allocation.2.2.1 3 (by decide),
   C8_monotonic_id_allocation.2.2.2 Unit envA false st0 "alice" addrA
    ⟨"token", 1⟩ ⟨"token", 10⟩ 1 stFee10 (by decide)⟩

/-- C3: for every fixed pool snapshot and `maxElements`,
`GetAllBatchFees` returns the per-contract fee summaries sorted
ascending by contract address, and its output is the same whatever
order the internal map traversal delivered the summaries in. -/
theorem C3_all_batch_fees_deterministic :
    ∀ (s : Store) (maxElements : Nat) (traversal : List BatchFees),
      List.Perm traversal (createBatchFeesValues s maxElements) →
      (GetAllBatchFees traversal).Sorted tokLe ∧
      ∀ traversal' : List BatchFees,
        List.Perm traversal' (createBatchFeesValues s maxElements) →
        GetAllBatchFees traversal = GetAllBatchFees traversal' := by
  intro s maxElements l hl
  refine ⟨List.sorted_insertionSort tokLe l, ?_⟩
  intro l' hl'
  have hperm : List.Perm (GetAllBatchFees l) (GetAllBatchFees l') :=
    ((List.perm_insertionSort tokLe l).trans hl).trans
      (hl'.symm.trans (List.perm_insertionSort tokLe l').symm)
  have hd : ((GetAllBatchFees l).map BatchFees.token).Nodup := by
    have hv := createBatchFeesValues_tokens_nodup s maxElements
    have hp : List.Perm ((GetAllBatchFees l).map BatchFees.token)
        ((createBatchFeesValues s maxElements).map BatchFees.token) :=
      ((List.perm_insertionSort tokLe l).trans hl).map _
    exact hp.symm.nodup hv
  exact sorted_perm_eq_of_tokens_nodup hperm
    (List.sorted_insertionSort _ _) (List.sorted_insertionSort _ _) hd

/-- Witness for C3 at a concrete two-contract pool: the canonical
traversal and the reversed traversal sort to the same
ascending-by-contract output. -/
theorem C3_all_batch_fees_deterministic_witness :
    (GetAllBatchFees (createBatchFeesValues stAB.pool 10)).Sorted tokLe ∧
    GetAllBatchFees (createBatchFeesValues stAB.pool 10) =
      GetAllBatchFees [⟨addrA.address, 10⟩, ⟨addrB.address, 7⟩] := by
  have h := C3_all_batch_fees_deterministic stAB.pool 10
    (createBatchFeesValues stAB.pool 10) (List.Perm.refl _)
  exact ⟨h.1, h.2 [⟨addrA.address, 10⟩, ⟨addrB.address, 7⟩] (by decide)⟩

end Gravity
